import Mathlib

/-!
Verification of the justfile parser and execution engine
(src/just-mcp-lib/src/parser.rs and src/just-mcp-lib/src/executor.rs).

The Rust code is embedded shallowly:
* Rust `String`/`str` values are Lean `String`; the character-level
  operations (`trim`, `lines`, `split_whitespace`, `replace`,
  `trim_matches`, `contains`, prefix stripping) are implemented below on
  `List Char` exactly following the documented Rust semantics.  Rust
  whitespace/alphanumeric classification is Unicode; the inputs of this
  development are ASCII, for which the Lean classifiers agree.
* `HashMap<String, String>` is modelled as an association list with
  overwrite-on-insert; iteration order is modelled as insertion order
  (the Rust iteration order is unspecified, and no claim depends on it).
* Spawning `sh -c <line>` is modelled by an oracle
  `sh : String -> String -> ShellOut` mapping a working directory and a
  command line to the captured stdout, stderr and exit status; execution
  functions additionally return the trace of dispatched commands.
* The recursive dependency execution of `execute_recipe` has no cycle
  detection in the source, so the Lean model takes a fuel argument and
  returns `none` when the recursion depth exceeds the fuel.
* `duration_ms` measures wall-clock time in the source; the model sets
  the directly measured duration of a command batch to 0 and keeps the
  additive accumulation across dependencies.  No claim concerns time.
-/

namespace JustMCP

/-- Decidable equality for `Except`, used to evaluate the model on
concrete inputs. -/
instance {ε α : Type} [DecidableEq ε] [DecidableEq α] : DecidableEq (Except ε α) := fun x y =>
  match x, y with
  | .ok a, .ok b =>
    if h : a = b then isTrue (by rw [h]) else isFalse (fun he => by cases he; exact h rfl)
  | .error a, .error b =>
    if h : a = b then isTrue (by rw [h]) else isFalse (fun he => by cases he; exact h rfl)
  | .ok _, .error _ => isFalse (fun he => by cases he)
  | .error _, .ok _ => isFalse (fun he => by cases he)

/-- The single-quote character, written by code point. -/
def squote : Char := Char.ofNat 39

/-- Rust `char::is_whitespace`, restricted to the ASCII range. -/
def isWsChar (c : Char) : Bool :=
  if c = ' ' then true else if c = '\t' then true
  else if c = '\r' then true else if c = '\n' then true else false

/-- Drop elements satisfying `p` from the end of a list. -/
def dropEndWhile (p : Char → Bool) (l : List Char) : List Char :=
  (l.reverse.dropWhile p).reverse

/-- Rust `str::trim` on a character list. -/
def listTrim (l : List Char) : List Char :=
  dropEndWhile isWsChar (l.dropWhile isWsChar)

/-- Rust `str::trim`. -/
def rustTrim (s : String) : String := String.mk (listTrim s.data)

/-- Rust `str::starts_with` for a string pattern. -/
def strStartsWith (s pre : String) : Bool := pre.data.isPrefixOf s.data

/-- Drop the first `n` characters of a string (used to model
`strip_prefix` after a successful `starts_with` test). -/
def strDrop (s : String) (n : Nat) : String := String.mk (s.data.drop n)

/-- Rust `str::contains` for a string pattern, on character lists. -/
def containsSub (pat : List Char) : List Char → Bool
  | [] => pat.isEmpty
  | c :: rest => pat.isPrefixOf (c :: rest) || containsSub pat rest

/-- Rust `str::contains` for a string pattern. -/
def containsStr (s pat : String) : Bool := containsSub pat.data s.data

/-- Fuelled core of Rust `str::replace`: leftmost-first, non-overlapping
replacement of `pat` by `rep`.  The fuel is instantiated with the length
of the scanned list, which is sufficient whenever `pat` is nonempty. -/
def replaceAux (pat rep : List Char) : Nat → List Char → List Char
  | _, [] => []
  | 0, l => l
  | Nat.succ f, c :: rest =>
    if pat.isPrefixOf (c :: rest) then
      rep ++ replaceAux pat rep f (rest.drop (pat.length - 1))
    else
      c :: replaceAux pat rep f rest

/-- Rust `str::replace` (with a nonempty pattern, as used by the code). -/
def rustReplace (s pat rep : String) : String :=
  String.mk (replaceAux pat.data rep.data s.data.length s.data)

/-- Rust `str::trim_matches` with a `char` pattern: removes every
leading and every trailing occurrence of `c` (not one layer, and the
two ends are trimmed independently). -/
def trimMatchesChar (c : Char) (s : String) : String :=
  String.mk (dropEndWhile (fun d => d = c) (s.data.dropWhile (fun d => d = c)))

/-- One finished line of Rust `str::lines`: the accumulator holds the
line in reverse; a trailing carriage return is stripped. -/
def finishLine (accRev : List Char) : List Char :=
  match accRev with
  | '\r' :: a => a.reverse
  | _ => accRev.reverse

/-- Core of Rust `str::lines`: split at every newline, strip a carriage
return before a newline, no trailing empty line. -/
def linesAux : List Char → List Char → List (List Char)
  | acc, [] => if acc.isEmpty then [] else [acc.reverse]
  | acc, '\n' :: rest => finishLine acc :: linesAux [] rest
  | acc, c :: rest => linesAux (c :: acc) rest

/-- Rust `str::lines`. -/
def rustLines (s : String) : List String := (linesAux [] s.data).map String.mk

/-- Core of Rust `str::split_whitespace`. -/
def splitWsAux : List Char → List Char → List (List Char)
  | acc, [] => if acc.isEmpty then [] else [acc.reverse]
  | acc, c :: rest =>
    if isWsChar c then
      if acc.isEmpty then splitWsAux [] rest else acc.reverse :: splitWsAux [] rest
    else splitWsAux (c :: acc) rest

/-- Rust `str::split_whitespace`. -/
def splitWs (s : String) : List String := (splitWsAux [] s.data).map String.mk

/-- Core of Rust `str::split_once` with a `char` pattern. -/
def splitOnceAux (c : Char) : List Char → List Char → Option (List Char × List Char)
  | _, [] => none
  | acc, d :: rest =>
    if d = c then some (acc.reverse, rest) else splitOnceAux c (d :: acc) rest

/-- Rust `str::split_once` with a `char` pattern.  This also models
`find` plus `split_at` on the first occurrence in `parse_recipe_line`,
where the separator itself is removed from the right part. -/
def splitOnceChar (c : Char) (s : String) : Option (String × String) :=
  (splitOnceAux c [] s.data).map (fun p => (String.mk p.1, String.mk p.2))

/-- The output-joining discipline used throughout `executor.rs`: append
`piece` to `acc`, inserting one newline only when both are nonempty. -/
def joinNl (acc piece : String) : String :=
  if piece = "" then acc else if acc = "" then piece else acc ++ "\n" ++ piece

/-- Overwrite-or-append insertion, modelling `HashMap::insert`. -/
def insertKV : List (String × String) → String → String → List (String × String)
  | [], k, v => [(k, v)]
  | kv :: rest, k, v => if kv.1 = k then (k, v) :: rest else kv :: insertKV rest k v

/-! ## Data model (src/just-mcp-lib/src/lib.rs) -/

/-- `Parameter` of a recipe. -/
structure Parameter where
  name : String
  default_value : Option String
deriving DecidableEq

/-- `Recipe`: one named task. -/
structure Recipe where
  name : String
  parameters : List Parameter
  documentation : Option String
  body : String
  dependencies : List String
deriving DecidableEq

/-- `Justfile`: the parsed document (`vars` models the `variables` field,
whose name is reserved in Lean). -/
structure Justfile where
  recipes : List Recipe
  vars : List (String × String)
deriving DecidableEq

/-! ## Parser (src/just-mcp-lib/src/parser.rs) -/

/-- `ParserError` (the `FileRead` variant concerns file IO, which is
outside the embedded core). -/
inductive ParserError where
  | ParseError (line : Nat) (message : String)
  | InvalidRecipe (message : String)
deriving DecidableEq

/-- `parse_variable_assignment`. -/
def parse_variable_assignment (line : String) : Option (String × String) :=
  match splitOnceChar '=' line with
  | none => none
  | some kv =>
    let key := rustTrim kv.1
    let value := rustTrim kv.2
    if key.data.all (fun c => c.isAlphanum || c = '_') ∧ key ≠ "" then
      some (key, value)
    else none

/-- `parse_parameter`.  The Rust function returns `Result` but never an
error, so the model is total. -/
def parse_parameter (param_str : String) : Parameter :=
  match splitOnceChar '=' param_str with
  | some nd =>
    { name := rustTrim nd.1
      default_value := some (trimMatchesChar squote (trimMatchesChar '"' (rustTrim nd.2))) }
  | none =>
    let n := rustTrim param_str
    let n := if strStartsWith n "*" then strDrop n 1 else n
    { name := n, default_value := none }

/-- `parse_recipe_line`: recognise a recipe header and build the recipe
with the pending documentation.  `none` means the line is not a header. -/
def parse_recipe_line (line : String) (documentation : Option String) : Option Recipe :=
  match splitOnceChar ':' line with
  | none => none
  | some hd =>
    let deps_part := rustTrim hd.2
    let header := rustTrim hd.1
    match splitWs header with
    | [] => none
    | name :: params =>
      some { name := name
             parameters := params.map parse_parameter
             documentation := documentation
             body := ""
             dependencies := splitWs deps_part }

/-- The mutable state of the `parse_justfile_str` loop. -/
structure PState where
  recipes : List Recipe
  vars : List (String × String)
  current_recipe : Option Recipe
  current_doc : Option String
deriving DecidableEq

/-- Append one body line to a recipe being collected. -/
def appendBody (r : Recipe) (line : String) : Recipe :=
  { r with body := if r.body = "" then line else r.body ++ "\n" ++ line }

/-- One iteration of the `parse_justfile_str` loop.  Note that the Rust
code evaluates `current_doc.take()` whenever the recipe-header check is
reached, so the pending documentation is cleared on every line that is
not blank, not a comment and not a variable assignment. -/
def parseStep (line_number : Nat) (st : PState) (line : String) : Except ParserError PState :=
  let trimmed := rustTrim line
  if trimmed = "" then .ok st
  else if strStartsWith trimmed "#" then
    let comment := rustTrim (strDrop trimmed 1)
    .ok { st with current_doc := if comment = "" then st.current_doc else some comment }
  else
    match parse_variable_assignment trimmed with
    | some kv => .ok { st with vars := insertKV st.vars kv.1 kv.2 }
    | none =>
      match parse_recipe_line trimmed st.current_doc with
      | some recipe =>
        .ok { recipes := st.recipes ++ st.current_recipe.toList
              vars := st.vars
              current_recipe := some recipe
              current_doc := none }
      | none =>
        if strStartsWith line "\t" || strStartsWith line "    " then
          match st.current_recipe with
          | some r => .ok { st with current_recipe := some (appendBody r line), current_doc := none }
          | none => .ok { st with current_doc := none }
        else
          .error (.ParseError line_number ("Unexpected content: " ++ trimmed))

/-- The `parse_justfile_str` loop with the final flush of the recipe in
progress. -/
def parseLines : PState → Nat → List String → Except ParserError Justfile
  | st, _, [] => .ok { recipes := st.recipes ++ st.current_recipe.toList, vars := st.vars }
  | st, n, l :: ls =>
    match parseStep n st l with
    | .error e => .error e
    | .ok st2 => parseLines st2 (n + 1) ls

/-- `parse_justfile_str`. -/
def parse_justfile_str (content : String) : Except ParserError Justfile :=
  parseLines { recipes := [], vars := [], current_recipe := none, current_doc := none } 1
    (rustLines content)

/-! ## Executor (src/just-mcp-lib/src/executor.rs) -/

/-- `ExecutionResult`. -/
structure ExecutionResult where
  stdout : String
  stderr : String
  exit_code : Int
  duration_ms : Nat
deriving DecidableEq

/-- `ExecutionError`.  `ExecutionFailed` (an OS spawn failure) is kept in
the taxonomy but is unreachable in the model, whose shell oracle always
returns an outcome. -/
inductive ExecutionError where
  | RecipeNotFound (recipe_name : String)
  | InvalidArguments (recipe_name : String) (message : String)
  | DependencyFailed (recipe_name : String) (dependency : String) (src : ExecutionError)
  | ExecutionFailed (recipe_name : String)
  | SubstitutionFailed (message : String)
deriving DecidableEq

/-- Captured outcome of one `sh -c <line>` process: stdout, stderr and
the exit status (`none` models signal termination, mapped to -1). -/
structure ShellOut where
  stdout : String
  stderr : String
  code : Option Int
deriving DecidableEq

/-- `find_recipe`: first recipe with the requested name. -/
def find_recipe (justfile : Justfile) (recipe_name : String) : Except ExecutionError Recipe :=
  match justfile.recipes.find? (fun r => r.name == recipe_name) with
  | some r => .ok r
  | none => .error (.RecipeNotFound recipe_name)

/-- The positional-argument pass of `validate_arguments`. -/
def bindArgs (params : List Parameter) (args : List String) : List (String × String) :=
  (params.zip args).foldl (fun m pa => insertKV m pa.1.name pa.2) []

/-- The default-filling pass of `validate_arguments` over the parameters
beyond the supplied arguments. -/
def fillDefaults (recipe_name : String) :
    List Parameter → List (String × String) → Except ExecutionError (List (String × String))
  | [], acc => .ok acc
  | p :: ps, acc =>
    match p.default_value with
    | some d => fillDefaults recipe_name ps (insertKV acc p.name d)
    | none => .error (.InvalidArguments recipe_name ("Missing required parameter: " ++ p.name))

/-- `validate_arguments`. -/
def validate_arguments (recipe : Recipe) (args : List String) :
    Except ExecutionError (List (String × String)) :=
  if args.length > recipe.parameters.length then
    .error (.InvalidArguments recipe.name
      ("Expected at most " ++ toString recipe.parameters.length ++ " arguments, got "
        ++ toString args.length))
  else
    fillDefaults recipe.name (recipe.parameters.drop args.length) (bindArgs recipe.parameters args)

/-- The substitution pattern for a name: two opening braces, one space,
the name, one space, two closing braces. -/
def mkPattern (name : String) : String := "\x7b\x7b " ++ name ++ " \x7d\x7d"

/-- Quote removal applied to variable values at substitution time. -/
def cleanVariableValue (value : String) : String :=
  trimMatchesChar squote (trimMatchesChar '"' value)

/-- The replacement phase of `substitute_parameters`: all bound
parameters first, then all vars (with quote-cleaned values). -/
def replaceAll (body : String) (param_values vars : List (String × String)) : String :=
  let afterParams :=
    param_values.foldl (fun acc kv => rustReplace acc (mkPattern kv.1) kv.2) body
  vars.foldl (fun acc kv => rustReplace acc (mkPattern kv.1) (cleanVariableValue kv.2))
    afterParams

/-- The message of the residual-marker failure. -/
def unresolvedMessage : String := "Unresolved parameter or variable references found"

/-- `substitute_parameters`. -/
def substitute_parameters (body : String) (param_values vars : List (String × String)) :
    Except ExecutionError String :=
  let result := replaceAll body param_values vars
  if containsStr result "\x7b\x7b" && containsStr result "\x7d\x7d" then
    .error (.SubstitutionFailed unresolvedMessage)
  else .ok result

/-- The skip test of the command loop: blank or comment line. -/
def skipLine (line : String) : Bool :=
  if rustTrim line = "" then true
  else if strStartsWith (rustTrim line) "#" then true
  else false

/-- Strip one leading tab, else one leading run of four spaces. -/
def stripIndent (line : String) : String :=
  if strStartsWith line "\t" then strDrop line 1
  else if strStartsWith line "    " then strDrop line 4
  else line

/-- Detect and strip the quiet marker `@`. -/
def splitQuiet (command_line : String) : Bool × String :=
  if strStartsWith command_line "@" then (true, strDrop command_line 1)
  else (false, command_line)

/-- Outcome of the command loop of `execute_commands`, together with the
trace of (working directory, command line) pairs dispatched to the
shell. -/
structure RunOut where
  stdout : String
  stderr : String
  exit_code : Int
  trace : List (String × String)
deriving DecidableEq

/-- The line loop of `execute_commands`: skip blank and comment lines,
strip the indent and the quiet marker, dispatch the command, accumulate
output, and stop at the first non-zero exit status. -/
def runLines (sh : String → String → ShellOut) (working_dir : String) :
    List String → String → String → RunOut
  | [], out, err => { stdout := out, stderr := err, exit_code := 0, trace := [] }
  | l :: rest, out, err =>
    if skipLine l then runLines sh working_dir rest out err
    else
      let q := splitQuiet (stripIndent l)
      let o := sh working_dir q.2
      let out2 := if o.stdout ≠ "" ∧ q.1 = false then joinNl out o.stdout else out
      let err2 := if o.stderr ≠ "" then joinNl err o.stderr else err
      let code := o.code.getD (-1)
      if code ≠ 0 then
        { stdout := out2, stderr := err2, exit_code := code, trace := [(working_dir, q.2)] }
      else
        let r := runLines sh working_dir rest out2 err2
        { stdout := r.stdout, stderr := r.stderr, exit_code := r.exit_code
          trace := (working_dir, q.2) :: r.trace }

/-- `execute_commands` (the measured wall-clock duration is modelled as
0; spawn failures do not occur with a total shell oracle). -/
def execute_commands (sh : String → String → ShellOut) (body : String) (working_dir : String)
    (_recipe_name : String) : ExecutionResult × List (String × String) :=
  let r := runLines sh working_dir (rustLines body) "" ""
  ({ stdout := r.stdout, stderr := r.stderr, exit_code := r.exit_code, duration_ms := 0 }, r.trace)

/-- The zero-initialised accumulator of the dependency loop. -/
def emptyResult : ExecutionResult :=
  { stdout := "", stderr := "", exit_code := 0, duration_ms := 0 }

/-- Accumulation of one dependency result into the running dependency
output (`execute_recipe`, dependency loop): outputs are newline-joined
skipping empty sides, durations add, and a non-zero dependency exit code
overwrites the accumulator. -/
def accumulateDep (acc dep : ExecutionResult) : ExecutionResult :=
  { stdout := joinNl acc.stdout dep.stdout
    stderr := joinNl acc.stderr dep.stderr
    exit_code := if dep.exit_code ≠ 0 then dep.exit_code else acc.exit_code
    duration_ms := acc.duration_ms + dep.duration_ms }

/-- The final merge of `execute_recipe`: dependency output is prepended
to the recipe output, durations add, and a non-zero accumulated
dependency exit code overwrites the recipe exit code. -/
def mergeDep (dep own : ExecutionResult) : ExecutionResult :=
  { stdout := joinNl dep.stdout own.stdout
    stderr := joinNl dep.stderr own.stderr
    exit_code := if dep.exit_code ≠ 0 then dep.exit_code else own.exit_code
    duration_ms := own.duration_ms + dep.duration_ms }

/-- The dependency loop of `execute_recipe`: each dependency is executed
by `exec1` (the recursive call with zero arguments), failures are
wrapped as `DependencyFailed`, successes are accumulated. -/
def execDeps
    (exec1 : String → Option (Except ExecutionError (ExecutionResult × List (String × String))))
    (recipe_name : String) :
    List String → ExecutionResult → List (String × String) →
      Option (Except ExecutionError (ExecutionResult × List (String × String)))
  | [], acc, tr => some (.ok (acc, tr))
  | d :: ds, acc, tr =>
    match exec1 d with
    | none => none
    | some (.error e) => some (.error (.DependencyFailed recipe_name d e))
    | some (.ok rt) => execDeps exec1 recipe_name ds (accumulateDep acc rt.1) (tr ++ rt.2)

/-- `execute_recipe`, with fuel bounding the dependency recursion depth
(`none` = fuel exhausted; the source recurses unboundedly on dependency
cycles).  Returns the result together with the dispatched-command
trace. -/
def execute_recipe (sh : String → String → ShellOut) (justfile : Justfile) :
    Nat → String → List String → String →
      Option (Except ExecutionError (ExecutionResult × List (String × String)))
  | 0, _, _, _ => none
  | Nat.succ fuel, recipe_name, args, working_dir =>
    match find_recipe justfile recipe_name with
    | .error e => some (.error e)
    | .ok recipe =>
      match validate_arguments recipe args with
      | .error e => some (.error e)
      | .ok param_values =>
        match execDeps (fun d => execute_recipe sh justfile fuel d [] working_dir)
            recipe_name recipe.dependencies emptyResult [] with
        | none => none
        | some (.error e) => some (.error e)
        | some (.ok depOut) =>
          match substitute_parameters recipe.body param_values justfile.vars with
          | .error e => some (.error e)
          | .ok substituted_body =>
            let rr := execute_commands sh substituted_body working_dir recipe_name
            some (.ok (mergeDep depOut.1 rr.1, depOut.2 ++ rr.2))


/-! ## General helper lemmas -/

theorem strMk_data (s : String) : String.mk s.data = s := by
  cases s
  rfl

theorem strData_append (s t : String) : (s ++ t).data = s.data ++ t.data := rfl

theorem joinNl_empty_left (s : String) : joinNl "" s = s := by
  by_cases h : s = "" <;> simp [joinNl, h]

theorem joinNl_empty_right (s : String) : joinNl s "" = s := by
  simp [joinNl]

/-! ## Claim C1: exit-code precedence between a recipe and its dependencies -/

/-- Shell oracle for the C1 scenario: the dependency body exits 2, the
top recipe body exits 3. -/
def shC1 : String → String → ShellOut := fun _ c =>
  if c = "cmdA" then { stdout := "", stderr := "", code := some 2 }
  else if c = "cmdC" then { stdout := "", stderr := "", code := some 3 }
  else { stdout := "", stderr := "", code := some 0 }

/-- Justfile for the C1 scenario: recipe `c` depends on `a`. -/
def jfC1 : Justfile :=
  { recipes := [
      { name := "a", parameters := [], documentation := none, body := "cmdA", dependencies := [] },
      { name := "c", parameters := [], documentation := none, body := "cmdC", dependencies := ["a"] }],
    vars := [] }

/-- Claim C1 is false as stated: executing `c` in `jfC1`, the recipe's
own commands exit with 3 (non-zero), yet the returned exit code is the
dependency's 2 — the dependency-accumulated non-zero code overrides even
a non-zero recipe-own code, while the claim says the recipe's own code
wins whenever it is non-zero. -/
theorem c1_counterexample :
    (execute_commands shC1 "cmdC" "/w" "c").1.exit_code = 3 ∧
    execute_recipe shC1 jfC1 2 "c" [] "/w" =
      some (.ok ({ stdout := "", stderr := "", exit_code := 2, duration_ms := 0 },
                 [("/w", "cmdA"), ("/w", "cmdC")])) ∧
    (2 : Int) ≠ 3 := by
  refine ⟨by decide, by decide, by decide⟩

/-- Claim C1 amended: the exit code of the returned result is the
dependency-accumulated exit code whenever that is non-zero (overriding
even a non-zero recipe-own exit code), and the recipe's own exit code
otherwise; during dependency accumulation a zero-exit dependency never
replaces the recorded code, while a non-zero one always does. -/
theorem c1_amended :
    (∀ dep own : ExecutionResult, dep.exit_code ≠ 0 → (mergeDep dep own).exit_code = dep.exit_code)
  ∧ (∀ dep own : ExecutionResult, dep.exit_code = 0 → (mergeDep dep own).exit_code = own.exit_code)
  ∧ (∀ acc dep : ExecutionResult, dep.exit_code = 0 → (accumulateDep acc dep).exit_code = acc.exit_code)
  ∧ (∀ acc dep : ExecutionResult, dep.exit_code ≠ 0 →
       (accumulateDep acc dep).exit_code = dep.exit_code) := by
  refine ⟨?_, ?_, ?_, ?_⟩ <;> intro x y h <;> simp [mergeDep, accumulateDep, h]

/-- Witness for C1 at concrete results. -/
theorem c1_witness :
    (mergeDep { stdout := "", stderr := "", exit_code := 2, duration_ms := 0 }
       { stdout := "", stderr := "", exit_code := 3, duration_ms := 0 }).exit_code = 2 ∧
    (accumulateDep { stdout := "", stderr := "", exit_code := 5, duration_ms := 0 }
       { stdout := "", stderr := "", exit_code := 0, duration_ms := 0 }).exit_code = 5 :=
  ⟨c1_amended.1 _ _ (by decide), c1_amended.2.2.1 _ _ (by decide)⟩

/-! ## Claim C3: which comment becomes a recipe's documentation -/

/-- Claim C3 is false as stated: in `"# doc\n\nfoo:\n"` the comment line
does not immediately precede the recipe header (a blank line is in
between), yet it becomes the documentation of `foo`. -/
theorem c3_counterexample :
    parse_justfile_str "# doc\n\nfoo:\n" =
      .ok { recipes := [{ name := "foo", parameters := [], documentation := some "doc",
                          body := "", dependencies := [] }], vars := [] } ∧
    (some "doc" : Option String) ≠ none := by
  refine ⟨by decide, by decide⟩

/-- Claim C3 amended, as behavior of one parser-loop step: a blank line
or an empty comment preserves the pending documentation; a non-empty
comment overwrites it; a variable assignment preserves it; a recipe
header consumes it (the new recipe's documentation is exactly the
pending value, which is then cleared); and any other non-blank,
non-comment, non-variable, non-header line — an indented body line, with
or without a recipe in progress — clears it without producing
documentation. -/
theorem c3_claim :
    (∀ n st (l : String), rustTrim l = "" → parseStep n st l = .ok st)
  ∧ (∀ n st (l : String) c, strStartsWith (rustTrim l) "#" = true →
       rustTrim (strDrop (rustTrim l) 1) = c → c ≠ "" →
       parseStep n st l = .ok { st with current_doc := some c })
  ∧ (∀ n st (l : String), strStartsWith (rustTrim l) "#" = true →
       rustTrim (strDrop (rustTrim l) 1) = "" →
       parseStep n st l = .ok st)
  ∧ (∀ n st (l : String) kv, strStartsWith (rustTrim l) "#" = false →
       parse_variable_assignment (rustTrim l) = some kv →
       parseStep n st l = .ok { st with vars := insertKV st.vars kv.1 kv.2 })
  ∧ (∀ n st (l : String) r, rustTrim l ≠ "" → strStartsWith (rustTrim l) "#" = false →
       parse_variable_assignment (rustTrim l) = none →
       parse_recipe_line (rustTrim l) st.current_doc = some r →
       parseStep n st l = .ok { recipes := st.recipes ++ st.current_recipe.toList,
                                vars := st.vars, current_recipe := some r, current_doc := none })
  ∧ (∀ (t : String) (d : Option String) r, parse_recipe_line t d = some r → r.documentation = d)
  ∧ (∀ n st (l : String) r, rustTrim l ≠ "" → strStartsWith (rustTrim l) "#" = false →
       parse_variable_assignment (rustTrim l) = none →
       parse_recipe_line (rustTrim l) st.current_doc = none →
       (strStartsWith l "\t" || strStartsWith l "    ") = true →
       st.current_recipe = some r →
       parseStep n st l =
         .ok { st with current_recipe := some (appendBody r l), current_doc := none })
  ∧ (∀ n st (l : String), rustTrim l ≠ "" → strStartsWith (rustTrim l) "#" = false →
       parse_variable_assignment (rustTrim l) = none →
       parse_recipe_line (rustTrim l) st.current_doc = none →
       (strStartsWith l "\t" || strStartsWith l "    ") = true →
       st.current_recipe = none →
       parseStep n st l = .ok { st with current_doc := none }) := by
  refine ⟨?_, ?_, ?_, ?_, ?_, ?_, ?_, ?_⟩
  · intro n st l h
    simp [parseStep, h]
  · intro n st l c h1 h2 h3
    have hne : rustTrim l ≠ "" := by
      intro he
      rw [he] at h1
      exact absurd h1 (by decide)
    simp [parseStep, hne, h1, h2, h3]
  · intro n st l h1 h2
    have hne : rustTrim l ≠ "" := by
      intro he
      rw [he] at h1
      exact absurd h1 (by decide)
    simp [parseStep, hne, h1, h2]
  · intro n st l kv h1 h2
    have hne : rustTrim l ≠ "" := by
      intro he
      rw [he] at h2
      rw [show parse_variable_assignment "" = none from by decide] at h2
      exact Option.noConfusion h2
    simp [parseStep, hne, h1, h2]
  · intro n st l r h1 h2 h3 h4
    simp [parseStep, h1, h2, h3, h4]
  · intro t d r h
    unfold parse_recipe_line at h
    cases hs : splitOnceChar ':' t with
    | none => rw [hs] at h; cases h
    | some hd =>
      rw [hs] at h
      cases hw : splitWs (rustTrim hd.1) with
      | nil => simp [hw] at h
      | cons nm ps =>
        simp [hw] at h
        rw [← h]
  · intro n st l r h1 h2 h3 h4 h5 h6
    simp [parseStep, h1, h2, h3, h4, h5, h6]
  · intro n st l h1 h2 h3 h4 h5 h6
    simp [parseStep, h1, h2, h3, h4, h5, h6]

/-- Witness for C3: a blank line preserves the pending comment, and the
later header consumes it. -/
theorem c3_witness :
    parseStep 2 { recipes := [], vars := [], current_recipe := none,
                  current_doc := some "doc" } "" =
      .ok { recipes := [], vars := [], current_recipe := none, current_doc := some "doc" } :=
  c3_claim.1 2 _ "" (by decide)

/-! ## Claim C7: the residual-marker check of substitution -/

/-- Claim C7: after replacing all bound parameters and then all
variables, substitution fails — always with `SubstitutionFailed` and the
fixed message that names no particular reference — exactly when the
replaced text still contains both marker substrings; a text with only
one of the two markers succeeds. -/
theorem c7_claim (body : String) (pv vs : List (String × String)) :
    ((∃ m, substitute_parameters body pv vs = .error (.SubstitutionFailed m)) ↔
      (containsStr (replaceAll body pv vs) "\x7b\x7b" = true ∧
       containsStr (replaceAll body pv vs) "\x7d\x7d" = true))
  ∧ (∀ m, substitute_parameters body pv vs = .error (.SubstitutionFailed m) →
      m = unresolvedMessage)
  ∧ (¬(containsStr (replaceAll body pv vs) "\x7b\x7b" = true ∧
        containsStr (replaceAll body pv vs) "\x7d\x7d" = true) →
      substitute_parameters body pv vs = .ok (replaceAll body pv vs))
  ∧ (∀ e, substitute_parameters body pv vs = .error e → ∃ m, e = .SubstitutionFailed m) := by
  by_cases h1 : containsStr (replaceAll body pv vs) "\x7b\x7b" = true <;>
    by_cases h2 : containsStr (replaceAll body pv vs) "\x7d\x7d" = true <;>
    simp [substitute_parameters, h1, h2]

/-- Witness for C7: a text containing only the opening marker makes
substitution succeed. -/
theorem c7_witness :
    substitute_parameters "x \x7b\x7b" [] [] = .ok "x \x7b\x7b" :=
  (c7_claim "x \x7b\x7b" [] []).2.2.1 (by decide)

/-! ## Claim C4: argument validation -/

/-- `Except.isOk` as a plain definition of this development. -/
def exceptIsOk {e a : Type} : Except e a → Bool
  | .ok _ => true
  | .error _ => false

/-- The first parameter in a list without a default value. -/
def firstNoDefault : List Parameter → Option Parameter
  | [] => none
  | p :: ps => if p.default_value = none then some p else firstNoDefault ps

theorem firstNoDefault_none_iff (ps : List Parameter) :
    firstNoDefault ps = none ↔ ∀ p ∈ ps, p.default_value ≠ none := by
  induction ps with
  | nil => simp [firstNoDefault]
  | cons q qs ih =>
    by_cases hq : q.default_value = none
    · simp [firstNoDefault, hq]
    · simp [firstNoDefault, hq, ih]

theorem fillDefaults_ok (rn : String) (ps : List Parameter) (acc : List (String × String))
    (h : ∀ p ∈ ps, p.default_value ≠ none) :
    ∃ m, fillDefaults rn ps acc = .ok m := by
  induction ps generalizing acc with
  | nil => exact ⟨acc, rfl⟩
  | cons q qs ih =>
    have hq := h q (List.mem_cons_self q qs)
    cases hd : q.default_value with
    | none => exact absurd hd hq
    | some d =>
      simp only [fillDefaults, hd]
      exact ih _ (fun p hp => h p (List.mem_cons_of_mem q hp))

theorem fillDefaults_err (rn : String) (ps : List Parameter) (acc : List (String × String))
    (p : Parameter) (h : firstNoDefault ps = some p) :
    fillDefaults rn ps acc =
      .error (.InvalidArguments rn ("Missing required parameter: " ++ p.name)) := by
  induction ps generalizing acc with
  | nil => simp [firstNoDefault] at h
  | cons q qs ih =>
    by_cases hq : q.default_value = none
    · simp [firstNoDefault, hq] at h
      subst h
      simp [fillDefaults, hq]
    · cases hd : q.default_value with
      | none => exact absurd hd hq
      | some d =>
        simp [firstNoDefault, hq] at h
        simp only [fillDefaults, hd]
        exact ih _ h

theorem firstNoDefault_some (ps : List Parameter) (p : Parameter)
    (h : firstNoDefault ps = some p) : p ∈ ps ∧ p.default_value = none := by
  induction ps with
  | nil => simp [firstNoDefault] at h
  | cons q qs ih =>
    by_cases hq : q.default_value = none
    · simp [firstNoDefault, hq] at h
      subst h
      exact ⟨List.mem_cons_self q qs, hq⟩
    · simp [firstNoDefault, hq] at h
      obtain ⟨hm, hn⟩ := ih h
      exact ⟨List.mem_cons_of_mem q hm, hn⟩

/-- Claim C4: `validate_arguments` fails exactly when more arguments are
supplied than parameters declared, or some parameter beyond the supplied
arguments lacks a default; every failure is `InvalidArguments`; the
too-many case reports the counts, the missing-default case names the
first such parameter; a recipe with zero parameters and zero arguments
always validates. -/
theorem c4_claim (recipe : Recipe) (args : List String) :
    (exceptIsOk (validate_arguments recipe args) = true ↔
      args.length ≤ recipe.parameters.length ∧
        ∀ p ∈ recipe.parameters.drop args.length, p.default_value ≠ none)
  ∧ (∀ e, validate_arguments recipe args = .error e →
      ∃ msg, e = .InvalidArguments recipe.name msg)
  ∧ (args.length > recipe.parameters.length →
      validate_arguments recipe args = .error (.InvalidArguments recipe.name
        ("Expected at most " ++ toString recipe.parameters.length ++ " arguments, got "
          ++ toString args.length)))
  ∧ (∀ p, args.length ≤ recipe.parameters.length →
      firstNoDefault (recipe.parameters.drop args.length) = some p →
      validate_arguments recipe args = .error (.InvalidArguments recipe.name
        ("Missing required parameter: " ++ p.name)))
  ∧ (recipe.parameters = [] → args = [] → exceptIsOk (validate_arguments recipe args) = true) := by
  by_cases hlen : args.length > recipe.parameters.length
  · refine ⟨?_, ?_, ?_, ?_, ?_⟩
    · simp [validate_arguments, hlen, exceptIsOk]
    · intro e he
      simp [validate_arguments, hlen] at he
      exact ⟨_, he.symm⟩
    · intro _
      simp [validate_arguments, hlen]
    · intro p hle
      exact absurd hle (by omega)
    · intro hp ha
      rw [hp, ha] at hlen
      simp at hlen
  · have hle : args.length ≤ recipe.parameters.length := by omega
    cases hfd : firstNoDefault (recipe.parameters.drop args.length) with
    | none =>
      have hall := (firstNoDefault_none_iff _).mp hfd
      obtain ⟨m, hm⟩ := fillDefaults_ok recipe.name _ (bindArgs recipe.parameters args) hall
      have hv : validate_arguments recipe args = .ok m := by
        unfold validate_arguments
        rw [if_neg hlen]
        exact hm
      refine ⟨?_, ?_, ?_, ?_, ?_⟩
      · rw [hv]
        exact iff_of_true rfl ⟨hle, hall⟩
      · intro e he
        rw [hv] at he
        cases he
      · exact fun hc => absurd hc (by omega)
      · intro q _ hfq
        exact Option.noConfusion hfq
      · intro _ _
        rw [hv]
        rfl
    | some p =>
      have herr := fillDefaults_err recipe.name _ (bindArgs recipe.parameters args) p hfd
      obtain ⟨hmem, hnone⟩ := firstNoDefault_some _ _ hfd
      have hv : validate_arguments recipe args = .error (.InvalidArguments recipe.name
          ("Missing required parameter: " ++ p.name)) := by
        unfold validate_arguments
        rw [if_neg hlen]
        exact herr
      refine ⟨?_, ?_, ?_, ?_, ?_⟩
      · rw [hv]
        exact iff_of_false (by simp [exceptIsOk]) (fun hc => (hc.2 p hmem) hnone)
      · intro e he
        rw [hv] at he
        cases he
        exact ⟨_, rfl⟩
      · exact fun hc => absurd hc (by omega)
      · intro q _ hfq
        have hqp := Option.some.inj hfq
        rw [← hqp]
        exact hv
      · intro hp ha
        rw [hp] at hfd
        simp [firstNoDefault] at hfd

/-- A recipe with one required parameter, for the C4 witness. -/
def recipeReq : Recipe :=
  { name := "deploy", parameters := [{ name := "env", default_value := none }],
    documentation := none, body := "", dependencies := [] }

/-- A recipe with no parameters, for the C4 witness. -/
def recipeNoParams : Recipe :=
  { name := "build", parameters := [], documentation := none, body := "", dependencies := [] }

/-- Witness for C4: a required parameter left unbound fails naming it; a
recipe with zero parameters and zero arguments validates. -/
theorem c4_witness :
    validate_arguments recipeReq [] =
      .error (.InvalidArguments "deploy" "Missing required parameter: env") ∧
    exceptIsOk (validate_arguments recipeNoParams []) = true :=
  ⟨(c4_claim recipeReq []).2.2.2.1 { name := "env", default_value := none }
      (by decide) (by decide),
   (c4_claim recipeNoParams []).2.2.2.2 rfl rfl⟩

/-! ## Claims C5 and C8: the command loop -/

theorem splitQuiet_at (cmd : String) : splitQuiet ("@" ++ cmd) = (true, cmd) := by
  have h1 : strStartsWith ("@" ++ cmd) "@" = true := by
    simp [strStartsWith, strData_append]
  have h2 : strDrop ("@" ++ cmd) 1 = cmd := by
    have : ("@" ++ cmd).data = '@' :: cmd.data := rfl
    simp [strDrop, this, strMk_data]
  simp [splitQuiet, h1, h2]

theorem splitQuiet_loud (cmd : String) (h : strStartsWith cmd "@" = false) :
    splitQuiet cmd = (false, cmd) := by
  simp [splitQuiet, h]

/-- Claim C8: a command line whose unindented form begins with `@` is
dispatched with the `@` stripped; its stdout is never added to the
accumulated stdout (the accumulator `out` is passed on unchanged), while
its stderr, if non-empty, is appended to the accumulated stderr — by the
same rule as for a non-quiet line, as the companion equation shows. -/
theorem c8_claim (sh : String → String → ShellOut) (wd l cmd : String) (rest : List String)
    (out err : String) (hskip : skipLine l = false) (hstrip : stripIndent l = "@" ++ cmd) :
    (runLines sh wd (l :: rest) out err =
      (let o := sh wd cmd
       let err2 := if o.stderr ≠ "" then joinNl err o.stderr else err
       let code := o.code.getD (-1)
       if code ≠ 0 then { stdout := out, stderr := err2, exit_code := code, trace := [(wd, cmd)] }
       else
         let r := runLines sh wd rest out err2
         { stdout := r.stdout, stderr := r.stderr, exit_code := r.exit_code
           trace := (wd, cmd) :: r.trace }))
  ∧ (∀ l2 : String, skipLine l2 = false → stripIndent l2 = cmd → strStartsWith cmd "@" = false →
      runLines sh wd (l2 :: rest) out err =
        (let o := sh wd cmd
         let out2 := if o.stdout ≠ "" then joinNl out o.stdout else out
         let err2 := if o.stderr ≠ "" then joinNl err o.stderr else err
         let code := o.code.getD (-1)
         if code ≠ 0 then
           { stdout := out2, stderr := err2, exit_code := code, trace := [(wd, cmd)] }
         else
           let r := runLines sh wd rest out2 err2
           { stdout := r.stdout, stderr := r.stderr, exit_code := r.exit_code
             trace := (wd, cmd) :: r.trace })) := by
  constructor
  · simp only [runLines, hskip, hstrip, splitQuiet_at]
    simp
  · intro l2 hskip2 hstrip2 hq
    simp only [runLines, hskip2, hstrip2, splitQuiet_loud cmd hq]
    simp +contextual

/-- Shell oracle for the C8 witness. -/
def shC8 : String → String → ShellOut := fun _ c =>
  if c = "q" then { stdout := "Q", stderr := "eQ", code := some 0 }
  else { stdout := "", stderr := "", code := some 0 }

/-- Witness for C8: the quiet command prints `Q` on stdout and `eQ` on
stderr; the run keeps the stderr but not the stdout, and dispatches the
command without its `@`. -/
theorem c8_witness :
    runLines shC8 "/w" ["@q"] "" "" =
      { stdout := "", stderr := "eQ", exit_code := 0, trace := [("/w", "q")] } := by
  rw [(c8_claim shC8 "/w" "@q" "q" [] "" "" (by decide) (by decide)).1]
  decide

/-- Claim C5: within one recipe body the lines are dispatched in order
and the first line whose process exits non-zero determines the result:
the remaining lines are never processed (the run on `l :: rest` equals
the run on `[l]` alone), the exit code is that line's code, and the
trace contains only that line's command.  The concrete scenario
`"false\necho after\n"` yields exit code 1 and empty stdout. -/
theorem c5_claim (sh : String → String → ShellOut) (wd l : String) (rest : List String)
    (out err : String) :
    (skipLine l = false → (sh wd (splitQuiet (stripIndent l)).2).code.getD (-1) ≠ 0 →
      runLines sh wd (l :: rest) out err = runLines sh wd [l] out err)
  ∧ (skipLine l = false → (sh wd (splitQuiet (stripIndent l)).2).code.getD (-1) ≠ 0 →
      (runLines sh wd (l :: rest) out err).exit_code =
        (sh wd (splitQuiet (stripIndent l)).2).code.getD (-1) ∧
      (runLines sh wd (l :: rest) out err).trace = [(wd, (splitQuiet (stripIndent l)).2)])
  ∧ (sh wd "false" = { stdout := "", stderr := "", code := some 1 } →
     sh wd "echo after" = { stdout := "after\n", stderr := "", code := some 0 } →
     (execute_commands sh "false\necho after\n" wd "r").1.exit_code = 1 ∧
     (execute_commands sh "false\necho after\n" wd "r").1.stdout = "" ∧
     containsStr (execute_commands sh "false\necho after\n" wd "r").1.stdout "after" = false) := by
  refine ⟨?_, ?_, ?_⟩
  · intro hskip hcode
    simp only [runLines, hskip, Bool.false_eq_true, if_false]
    rw [if_pos hcode, if_pos hcode]
  · intro hskip hcode
    simp only [runLines, hskip, Bool.false_eq_true, if_false]
    rw [if_pos hcode]
    exact ⟨rfl, rfl⟩
  · intro hF hE
    have hlines : rustLines "false\necho after\n" = ["false", "echo after"] := by decide
    have hskip : skipLine "false" = false := by decide
    have hsq : splitQuiet (stripIndent "false") = (false, "false") := by decide
    have hrun : runLines sh wd ["false", "echo after"] "" "" =
        { stdout := "", stderr := "", exit_code := 1, trace := [(wd, "false")] } := by
      simp only [runLines, hskip, Bool.false_eq_true, if_false, hsq, hF]
      norm_num
    have hec : execute_commands sh "false\necho after\n" wd "r" =
        ({ stdout := "", stderr := "", exit_code := 1, duration_ms := 0 }, [(wd, "false")]) := by
      unfold execute_commands
      rw [hlines, hrun]
    rw [hec]
    refine ⟨rfl, rfl, rfl⟩


/-! ## Claim C2: quote stripping of defaults and variable values -/

/-- Claim C2 is false as stated: a default (or variable value) written
`""X""` does not keep its inner quotes — every layer is stripped, at the
parser for defaults and at substitution for variables. -/
theorem c2_counterexample :
    parse_parameter "p=\"\"X\"\"" = { name := "p", default_value := some "X" } ∧
    cleanVariableValue "\"\"X\"\"" = "X" ∧
    replaceAll "echo \x7b\x7b v \x7d\x7d" [] [("v", "\"\"X\"\"")] = "echo X" ∧
    ("X" : String) ≠ "\"X\"" := by
  refine ⟨by decide, by decide, by decide, by decide⟩

theorem dropWhile_replicate_append (c : Char) (k : Nat) (l : List Char) :
    (List.replicate k c ++ l).dropWhile (fun d => d = c) = l.dropWhile (fun d => d = c) := by
  induction k with
  | zero => simp
  | succ n ih => simp [List.replicate_succ, List.dropWhile_cons, ih]

theorem dropWhile_eq_self_of_head (p : Char → Bool) (l : List Char)
    (h : ∀ d, l.head? = some d → p d = false) : l.dropWhile p = l := by
  cases l with
  | nil => rfl
  | cons a as => simp [List.dropWhile_cons, h a rfl]

theorem dropEndWhile_eq_self (p : Char → Bool) (l : List Char)
    (h : ∀ d, l.getLast? = some d → p d = false) : dropEndWhile p l = l := by
  unfold dropEndWhile
  rw [dropWhile_eq_self_of_head]
  · exact l.reverse_reverse
  · intro d hd
    apply h
    rw [← List.head?_reverse]
    exact hd

theorem replicate_getLast? (n : Nat) (c : Char) :
    (List.replicate (n + 1) c).getLast? = some c := by
  induction n with
  | zero => rfl
  | succ i ih =>
    rw [List.replicate_succ]
    rw [show List.replicate (i + 1) c = c :: List.replicate i c from List.replicate_succ ..]
    rw [List.getLast?_cons_cons]
    rw [← List.replicate_succ]
    exact ih

/-- `n` double-quote characters. -/
def dquotes (n : Nat) : String := String.mk (List.replicate n '"')

/-- Both edge characters of `s` exist and are neither whitespace nor a
double or single quote. -/
def edgePlain (s : String) : Bool :=
  match s.data.head?, s.data.getLast? with
  | some a, some b =>
    if isWsChar a = false ∧ a ≠ '"' ∧ a ≠ squote ∧
        isWsChar b = false ∧ b ≠ '"' ∧ b ≠ squote then true else false
  | _, _ => false

/-- `n` single-quote characters. -/
def squotes (n : Nat) : String := String.mk (List.replicate n squote)

theorem head_replicate_append (c : Char) (k : Nat) (l : List Char) (d : Char)
    (h : (List.replicate k c ++ l).head? = some d) : d = c ∨ l.head? = some d := by
  cases k with
  | zero => right; simpa using h
  | succ i =>
    left
    rw [List.replicate_succ, List.cons_append] at h
    injection h with h
    exact h.symm

theorem head_append_left (l r : List Char) (d : Char) (hne : l ≠ [])
    (h : (l ++ r).head? = some d) : l.head? = some d := by
  cases l with
  | nil => exact absurd rfl hne
  | cons a as => exact h

theorem getLast_append_replicate (c : Char) (k : Nat) (l : List Char) (d : Char)
    (h : (l ++ List.replicate k c).getLast? = some d) : d = c ∨ l.getLast? = some d := by
  cases k with
  | zero => right; simpa using h
  | succ i =>
    left
    have he : (l ++ List.replicate (i + 1) c).getLast? = some c := by
      rw [List.getLast?_append_of_ne_nil]
      · exact replicate_getLast? i c
      · simp [List.replicate_succ]
    exact Option.some.inj (h.symm.trans he)

theorem trimMatches_wrap2 (c : Char) (k m : Nat) (l : List Char) (hne : l ≠ [])
    (hh : ∀ d, l.head? = some d → d ≠ c)
    (hl : ∀ d, l.getLast? = some d → d ≠ c) :
    trimMatchesChar c (String.mk (List.replicate k c ++ (l ++ List.replicate m c))) =
      String.mk l := by
  have hd2 : ∀ d, (l ++ List.replicate m c).head? = some d → d ≠ c :=
    fun d hd => hh d (head_append_left l _ d hne hd)
  have h1 : (List.replicate k c ++ (l ++ List.replicate m c)).dropWhile (fun d => d = c) =
      l ++ List.replicate m c := by
    rw [dropWhile_replicate_append]
    exact dropWhile_eq_self_of_head _ _ (fun d hd => by simp [hd2 d hd])
  have h2 : dropEndWhile (fun d => d = c) (l ++ List.replicate m c) = l := by
    unfold dropEndWhile
    rw [List.reverse_append, List.reverse_replicate, dropWhile_replicate_append]
    rw [dropWhile_eq_self_of_head _ _ (fun d hd => by
      rw [List.head?_reverse] at hd
      simp [hl d hd])]
    exact l.reverse_reverse
  unfold trimMatchesChar
  rw [show (String.mk (List.replicate k c ++ (l ++ List.replicate m c))).data =
      List.replicate k c ++ (l ++ List.replicate m c) from rfl]
  rw [h1, h2]

theorem trimMatches_id (c : Char) (s : String)
    (hh : ∀ d, s.data.head? = some d → d ≠ c)
    (hl : ∀ d, s.data.getLast? = some d → d ≠ c) :
    trimMatchesChar c s = s := by
  unfold trimMatchesChar
  rw [dropWhile_eq_self_of_head _ _ (fun d hd => by simp [hh d hd])]
  rw [dropEndWhile_eq_self _ _ (fun d hd => by simp [hl d hd])]

theorem splitOnce_p (v : String) : splitOnceChar '=' ("p=" ++ v) = some ("p", v) := by
  have hdata : ("p=" ++ v).data = 'p' :: '=' :: v.data := rfl
  unfold splitOnceChar
  rw [hdata]
  rw [show splitOnceAux '=' ([] : List Char) ('p' :: '=' :: v.data) =
        some (['p'], v.data) from by simp +decide [splitOnceAux]]
  simp only [Option.map_some']

/-- Claim C2 amended: a parameter default and a substituted variable
value have every leading and trailing double-quote character stripped
first, then every leading and trailing single-quote character of the
result — all layers, the two ends independently (also unmatched layer
counts), covering arbitrarily nested double-then-single wrappings; so
`"X"`, `'X'`, `"'X'"` and `""X""` all become `X`, while a value whose
outermost quotes are single keeps inner double quotes (the second,
single-quote phase runs after the double-quote phase). -/
theorem c2_claim (k j m n : Nat) (s : String) (h : edgePlain s = true) :
    (parse_parameter ("p=" ++ dquotes k ++ squotes j ++ s ++ squotes n ++ dquotes m) =
      { name := "p", default_value := some s })
  ∧ (cleanVariableValue (dquotes k ++ squotes j ++ s ++ squotes n ++ dquotes m) = s)
  ∧ (parse_parameter ("p=" ++ squotes (j + 1) ++ dquotes k ++ s ++ dquotes m ++ squotes (n + 1)) =
      { name := "p", default_value := some (dquotes k ++ s ++ dquotes m) })
  ∧ (cleanVariableValue (squotes (j + 1) ++ dquotes k ++ s ++ dquotes m ++ squotes (n + 1)) =
      dquotes k ++ s ++ dquotes m) := by
  obtain ⟨a, b, ha, hb, hwa, hqa, hsa, hwb, hqb, hsb⟩ :
      ∃ a b, s.data.head? = some a ∧ s.data.getLast? = some b ∧
        isWsChar a = false ∧ a ≠ '"' ∧ a ≠ squote ∧
        isWsChar b = false ∧ b ≠ '"' ∧ b ≠ squote := by
    unfold edgePlain at h
    cases hha : s.data.head? with
    | none => rw [hha] at h; cases h
    | some a =>
      cases hhb : s.data.getLast? with
      | none => rw [hha, hhb] at h; cases h
      | some b =>
        rw [hha, hhb] at h
        have h2 : (if isWsChar a = false ∧ a ≠ '"' ∧ a ≠ squote ∧
            isWsChar b = false ∧ b ≠ '"' ∧ b ≠ squote then true else false) = true := h
        by_cases hP : isWsChar a = false ∧ a ≠ '"' ∧ a ≠ squote ∧
            isWsChar b = false ∧ b ≠ '"' ∧ b ≠ squote
        · exact ⟨a, b, rfl, rfl, hP.1, hP.2.1, hP.2.2.1, hP.2.2.2.1, hP.2.2.2.2.1,
            hP.2.2.2.2.2⟩
        · rw [if_neg hP] at h2
          cases h2
  have hne : s.data ≠ [] := by
    intro hs
    rw [hs] at ha
    cases ha
  have hsq : squote ≠ '"' := by decide
  have hdq : ('"' : Char) ≠ squote := by decide
  -- edge facts through the quote wrappers, at the character-list level
  have hsrepne : ∀ (c : Char) (i : Nat), s.data ++ List.replicate i c ≠ [] := by
    intro c i hc
    rcases List.append_eq_nil.mp hc with ⟨h1, _⟩
    exact hne h1
  have hs_head : ∀ (c : Char) (i : Nat) d,
      (s.data ++ List.replicate i c).head? = some d → d = c ∨ d = a := by
    intro c i d hd
    right
    have := head_append_left s.data _ d hne hd
    injection ha.symm.trans this with h3
    exact h3.symm
  have hs_last : ∀ (c : Char) (i : Nat) d,
      (s.data ++ List.replicate i c).getLast? = some d → d = c ∨ d = b := by
    intro c i d hd
    rcases getLast_append_replicate c i s.data d hd with h3 | h3
    · exact Or.inl h3
    · right
      injection hb.symm.trans h3 with h4
      exact h4.symm
  -- the inner list of the first family: single quotes directly around s
  have hin1ne : List.replicate j squote ++ (s.data ++ List.replicate n squote) ≠ [] := by
    intro hc
    rcases List.append_eq_nil.mp hc with ⟨_, h2⟩
    exact hsrepne squote n h2
  have hin1h : ∀ d,
      (List.replicate j squote ++ (s.data ++ List.replicate n squote)).head? = some d →
        d ≠ '"' := by
    intro d hd
    rcases head_replicate_append squote j _ d hd with h3 | h3
    · rw [h3]; exact hsq
    · rcases hs_head squote n d h3 with h4 | h4
      · rw [h4]; exact hsq
      · rw [h4]; exact hqa
  have hin1l : ∀ d,
      (List.replicate j squote ++ (s.data ++ List.replicate n squote)).getLast? = some d →
        d ≠ '"' := by
    intro d hd
    rw [List.getLast?_append_of_ne_nil _ (hsrepne squote n)] at hd
    rcases hs_last squote n d hd with h3 | h3
    · rw [h3]; exact hsq
    · rw [h3]; exact hqb
  have hin1hs : ∀ d,
      (List.replicate j squote ++ (s.data ++ List.replicate n squote)).head? = some d →
        isWsChar d = false := by
    intro d hd
    rcases head_replicate_append squote j _ d hd with h3 | h3
    · rw [h3]; decide
    · rcases hs_head squote n d h3 with h4 | h4
      · rw [h4]; decide
      · rw [h4]; exact hwa
  have hin1ls : ∀ d,
      (List.replicate j squote ++ (s.data ++ List.replicate n squote)).getLast? = some d →
        isWsChar d = false := by
    intro d hd
    rw [List.getLast?_append_of_ne_nil _ (hsrepne squote n)] at hd
    rcases hs_last squote n d hd with h3 | h3
    · rw [h3]; decide
    · rw [h3]; exact hwb
  -- the middle list of the second family: double quotes directly around s
  have hmidne : List.replicate k '"' ++ (s.data ++ List.replicate m '"') ≠ [] := by
    intro hc
    rcases List.append_eq_nil.mp hc with ⟨_, h2⟩
    exact hsrepne '"' m h2
  have hmidh : ∀ d,
      (List.replicate k '"' ++ (s.data ++ List.replicate m '"')).head? = some d →
        d ≠ squote := by
    intro d hd
    rcases head_replicate_append '"' k _ d hd with h3 | h3
    · rw [h3]; exact hdq
    · rcases hs_head '"' m d h3 with h4 | h4
      · rw [h4]; exact hdq
      · rw [h4]; exact hsa
  have hmidl : ∀ d,
      (List.replicate k '"' ++ (s.data ++ List.replicate m '"')).getLast? = some d →
        d ≠ squote := by
    intro d hd
    rw [List.getLast?_append_of_ne_nil _ (hsrepne '"' m)] at hd
    rcases hs_last '"' m d hd with h3 | h3
    · rw [h3]; exact hdq
    · rw [h3]; exact hsb
  -- data of the first-family value and the phase equations
  have hv_data : (dquotes k ++ squotes j ++ s ++ squotes n ++ dquotes m).data =
      List.replicate k '"' ++
        ((List.replicate j squote ++ (s.data ++ List.replicate n squote)) ++
          List.replicate m '"') := by
    rw [strData_append, strData_append, strData_append, strData_append]
    rw [show (dquotes k).data = List.replicate k '"' from rfl,
        show (squotes j).data = List.replicate j squote from rfl,
        show (squotes n).data = List.replicate n squote from rfl,
        show (dquotes m).data = List.replicate m '"' from rfl]
    simp [List.append_assoc]
  have hv_mk : (dquotes k ++ squotes j ++ s ++ squotes n ++ dquotes m) =
      String.mk (List.replicate k '"' ++
        ((List.replicate j squote ++ (s.data ++ List.replicate n squote)) ++
          List.replicate m '"')) := by
    rw [← hv_data]
  have phase1v : trimMatchesChar '"' (dquotes k ++ squotes j ++ s ++ squotes n ++ dquotes m) =
      String.mk (List.replicate j squote ++ (s.data ++ List.replicate n squote)) := by
    rw [hv_mk]
    exact trimMatches_wrap2 '"' k m _ hin1ne hin1h hin1l
  have phase2v : trimMatchesChar squote
      (String.mk (List.replicate j squote ++ (s.data ++ List.replicate n squote))) = s := by
    have := trimMatches_wrap2 squote j n s.data hne
      (fun d hd => by injection ha.symm.trans hd with h3; rw [← h3]; exact hsa)
      (fun d hd => by injection hb.symm.trans hd with h3; rw [← h3]; exact hsb)
    exact this.trans (strMk_data s)
  have hcleanv : cleanVariableValue (dquotes k ++ squotes j ++ s ++ squotes n ++ dquotes m) =
      s := by
    unfold cleanVariableValue
    rw [phase1v]
    exact phase2v
  have htrimv : rustTrim (dquotes k ++ squotes j ++ s ++ squotes n ++ dquotes m) =
      dquotes k ++ squotes j ++ s ++ squotes n ++ dquotes m := by
    unfold rustTrim listTrim
    rw [dropWhile_eq_self_of_head _ _ (fun d hd => by
      rw [hv_data] at hd
      rcases head_replicate_append '"' k _ d hd with h3 | h3
      · rw [h3]; decide
      · exact hin1hs d (head_append_left _ _ d hin1ne h3))]
    rw [dropEndWhile_eq_self _ _ (fun d hd => by
      rw [hv_data] at hd
      rcases getLast_append_replicate '"' m
          (List.replicate k '"' ++ (List.replicate j squote ++
            (s.data ++ List.replicate n squote))) d (by
          rw [← List.append_assoc] at hd
          exact hd) with h3 | h3
      · rw [h3]; decide
      · rw [List.getLast?_append_of_ne_nil _ hin1ne] at h3
        exact hin1ls d h3)]
  -- data of the second-family value and the phase equations
  have hw_data : (squotes (j + 1) ++ dquotes k ++ s ++ dquotes m ++ squotes (n + 1)).data =
      List.replicate (j + 1) squote ++
        ((List.replicate k '"' ++ (s.data ++ List.replicate m '"')) ++
          List.replicate (n + 1) squote) := by
    rw [strData_append, strData_append, strData_append, strData_append]
    rw [show (squotes (j + 1)).data = List.replicate (j + 1) squote from rfl,
        show (dquotes k).data = List.replicate k '"' from rfl,
        show (dquotes m).data = List.replicate m '"' from rfl,
        show (squotes (n + 1)).data = List.replicate (n + 1) squote from rfl]
    simp [List.append_assoc]
  have hw_mk : (squotes (j + 1) ++ dquotes k ++ s ++ dquotes m ++ squotes (n + 1)) =
      String.mk (List.replicate (j + 1) squote ++
        ((List.replicate k '"' ++ (s.data ++ List.replicate m '"')) ++
          List.replicate (n + 1) squote)) := by
    rw [← hw_data]
  have hw_head : (squotes (j + 1) ++ dquotes k ++ s ++ dquotes m ++
      squotes (n + 1)).data.head? = some squote := by
    rw [hw_data, List.replicate_succ]
    rfl
  have hw_last : (squotes (j + 1) ++ dquotes k ++ s ++ dquotes m ++
      squotes (n + 1)).data.getLast? = some squote := by
    rw [hw_data]
    rw [List.getLast?_append_of_ne_nil]
    · rw [List.getLast?_append_of_ne_nil]
      · exact replicate_getLast? n squote
      · simp [List.replicate_succ]
    · simp [List.replicate_succ]
  have phase1w : trimMatchesChar '"'
      (squotes (j + 1) ++ dquotes k ++ s ++ dquotes m ++ squotes (n + 1)) =
      squotes (j + 1) ++ dquotes k ++ s ++ dquotes m ++ squotes (n + 1) :=
    trimMatches_id '"' _
      (fun d hd => by injection hw_head.symm.trans hd with h3; rw [← h3]; exact hdq.symm)
      (fun d hd => by injection hw_last.symm.trans hd with h3; rw [← h3]; exact hdq.symm)
  have phase2w : trimMatchesChar squote
      (squotes (j + 1) ++ dquotes k ++ s ++ dquotes m ++ squotes (n + 1)) =
      String.mk (List.replicate k '"' ++ (s.data ++ List.replicate m '"')) := by
    rw [hw_mk]
    exact trimMatches_wrap2 squote (j + 1) (n + 1) _ hmidne hmidh hmidl
  have hmid_data : (dquotes k ++ s ++ dquotes m).data =
      List.replicate k '"' ++ (s.data ++ List.replicate m '"') := by
    rw [strData_append, strData_append]
    rw [show (dquotes k).data = List.replicate k '"' from rfl,
        show (dquotes m).data = List.replicate m '"' from rfl]
    rw [List.append_assoc]
  have hmid_mk : String.mk (List.replicate k '"' ++ (s.data ++ List.replicate m '"')) =
      dquotes k ++ s ++ dquotes m := by
    rw [← hmid_data]
  have hcleanw : cleanVariableValue
      (squotes (j + 1) ++ dquotes k ++ s ++ dquotes m ++ squotes (n + 1)) =
      dquotes k ++ s ++ dquotes m := by
    unfold cleanVariableValue
    rw [phase1w]
    exact phase2w.trans hmid_mk
  have htrimw : rustTrim (squotes (j + 1) ++ dquotes k ++ s ++ dquotes m ++ squotes (n + 1)) =
      squotes (j + 1) ++ dquotes k ++ s ++ dquotes m ++ squotes (n + 1) := by
    unfold rustTrim listTrim
    rw [dropWhile_eq_self_of_head _ _ (fun d hd => by
      injection hw_head.symm.trans hd with h3
      rw [← h3]
      decide)]
    rw [dropEndWhile_eq_self _ _ (fun d hd => by
      injection hw_last.symm.trans hd with h3
      rw [← h3]
      decide)]
  refine ⟨?_, hcleanv, ?_, hcleanw⟩
  · rw [show ("p=" ++ dquotes k ++ squotes j ++ s ++ squotes n ++ dquotes m : String) =
        "p=" ++ (dquotes k ++ squotes j ++ s ++ squotes n ++ dquotes m) from by
      simp [String.append_assoc]]
    unfold parse_parameter
    rw [splitOnce_p]
    simp only [htrimv, phase1v, phase2v]
    rw [show rustTrim "p" = "p" from by decide]
  · rw [show ("p=" ++ squotes (j + 1) ++ dquotes k ++ s ++ dquotes m ++ squotes (n + 1) :
        String) =
        "p=" ++ (squotes (j + 1) ++ dquotes k ++ s ++ dquotes m ++ squotes (n + 1)) from by
      simp [String.append_assoc]]
    unfold parse_parameter
    rw [splitOnce_p]
    simp only [htrimw, phase1w, phase2w, hmid_mk]
    rw [show rustTrim "p" = "p" from by decide]

/-- Witness for C2: both quote kinds and both nesting orders.  The
double-quote default `""X""` parses to `X`; a single-quoted variable
value becomes `X`; a single-quote-outermost value keeps the inner
double quotes. -/
theorem c2_witness :
    parse_parameter "p=\"\"X\"\"" = { name := "p", default_value := some "X" } ∧
    cleanVariableValue (squotes 1 ++ "X" ++ squotes 1) = "X" ∧
    cleanVariableValue (squotes 1 ++ dquotes 1 ++ "X" ++ dquotes 1 ++ squotes 1) = "\"X\"" := by
  refine ⟨?_, ?_, ?_⟩
  · rw [show ("p=\"\"X\"\"" : String) =
        "p=" ++ dquotes 2 ++ squotes 0 ++ "X" ++ squotes 0 ++ dquotes 2 from by decide]
    exact (c2_claim 2 0 2 0 "X" (by decide)).1
  · rw [show (squotes 1 ++ "X" ++ squotes 1 : String) =
        dquotes 0 ++ squotes 1 ++ "X" ++ squotes 1 ++ dquotes 0 from by decide]
    exact (c2_claim 0 1 0 1 "X" (by decide)).2.1
  · exact ((c2_claim 1 0 1 0 "X" (by decide)).2.2.2).trans (by decide)

/-! ## Claim C9: where parsing fails -/

/-- The per-line shape test under which `parse_justfile_str` errors:
non-blank, not a comment, not a variable assignment, not a recipe
header, and not indented by a tab or four spaces.  The test is
independent of the parser state. -/
def badLine (l : String) : Bool :=
  if rustTrim l = "" then false
  else if strStartsWith (rustTrim l) "#" then false
  else if (parse_variable_assignment (rustTrim l)).isSome then false
  else if (parse_recipe_line (rustTrim l) none).isSome then false
  else if strStartsWith l "\t" || strStartsWith l "    " then false
  else true

/-- Index (0-based) and text of the first bad line. -/
def firstBad : List String → Option (Nat × String)
  | [] => none
  | l :: ls => if badLine l then some (0, l) else (firstBad ls).map (fun p => (p.1 + 1, p.2))

theorem parse_recipe_line_none_iff (t : String) (d d2 : Option String) :
    parse_recipe_line t d = none ↔ parse_recipe_line t d2 = none := by
  unfold parse_recipe_line
  cases hs : splitOnceChar ':' t with
  | none => simp
  | some hd =>
    cases hw : splitWs (rustTrim hd.1) with
    | nil => simp [hw]
    | cons a as => simp [hw]

theorem parseStep_bad (n : Nat) (st : PState) (l : String) (h : badLine l = true) :
    parseStep n st l = .error (.ParseError n ("Unexpected content: " ++ rustTrim l)) := by
  unfold badLine at h
  by_cases h1 : rustTrim l = ""
  · rw [if_pos h1] at h; cases h
  · rw [if_neg h1] at h
    by_cases h2 : strStartsWith (rustTrim l) "#" = true
    · rw [if_pos h2] at h; cases h
    · have h2b : strStartsWith (rustTrim l) "#" = false := by simpa using h2
      rw [if_neg h2] at h
      cases h3 : parse_variable_assignment (rustTrim l) with
      | some kv => rw [if_pos (by rw [h3]; rfl)] at h; cases h
      | none =>
        rw [if_neg (by rw [h3]; simp)] at h
        cases h4 : parse_recipe_line (rustTrim l) none with
        | some r => rw [if_pos (by rw [h4]; rfl)] at h; cases h
        | none =>
          rw [if_neg (by rw [h4]; simp)] at h
          by_cases h5 : (strStartsWith l "\t" || strStartsWith l "    ") = true
          · rw [if_pos h5] at h; cases h
          · have h5b : (strStartsWith l "\t" || strStartsWith l "    ") = false := by
              simpa using h5
            have h4d : parse_recipe_line (rustTrim l) st.current_doc = none :=
              (parse_recipe_line_none_iff _ none _).mp h4
            simp [parseStep, h1, h2b, h3, h4d, h5b]

theorem parseStep_good (n : Nat) (st : PState) (l : String) (h : badLine l = false) :
    ∃ st2, parseStep n st l = .ok st2 := by
  by_cases h1 : rustTrim l = ""
  · exact ⟨st, by simp [parseStep, h1]⟩
  · by_cases h2 : strStartsWith (rustTrim l) "#" = true
    · exact ⟨{ st with current_doc := if rustTrim (strDrop (rustTrim l) 1) = "" then
          st.current_doc else some (rustTrim (strDrop (rustTrim l) 1)) },
        by simp [parseStep, h1, h2]⟩
    · have h2b : strStartsWith (rustTrim l) "#" = false := by simpa using h2
      cases h3 : parse_variable_assignment (rustTrim l) with
      | some kv =>
        exact ⟨{ st with vars := insertKV st.vars kv.1 kv.2 },
          by simp [parseStep, h1, h2b, h3]⟩
      | none =>
        cases h4 : parse_recipe_line (rustTrim l) st.current_doc with
        | some r =>
          exact ⟨{ recipes := st.recipes ++ st.current_recipe.toList, vars := st.vars,
                   current_recipe := some r, current_doc := none },
            by simp [parseStep, h1, h2b, h3, h4]⟩
        | none =>
          have h4n : parse_recipe_line (rustTrim l) none = none :=
            (parse_recipe_line_none_iff _ st.current_doc none).mp h4
          unfold badLine at h
          rw [if_neg h1, if_neg h2, if_neg (by rw [h3]; simp),
            if_neg (by rw [h4n]; simp)] at h
          by_cases h5 : (strStartsWith l "\t" || strStartsWith l "    ") = true
          · cases hcr : st.current_recipe with
            | some r =>
              exact ⟨{ st with current_recipe := some (appendBody r l), current_doc := none },
                by simp [parseStep, h1, h2b, h3, h4, h5, hcr]⟩
            | none =>
              exact ⟨{ st with current_doc := none },
                by simp [parseStep, h1, h2b, h3, h4, h5, hcr]⟩
          · rw [if_neg h5] at h
            cases h

theorem parseLines_spec (ls : List String) : ∀ (st : PState) (n : Nat),
    (∀ i l, firstBad ls = some (i, l) →
      parseLines st n ls = .error (.ParseError (n + i) ("Unexpected content: " ++ rustTrim l)))
  ∧ (firstBad ls = none → ∃ jf, parseLines st n ls = .ok jf) := by
  induction ls with
  | nil =>
    intro st n
    constructor
    · intro i l h
      simp [firstBad] at h
    · intro _
      exact ⟨_, rfl⟩
  | cons l0 ls ih =>
    intro st n
    constructor
    · intro i l h
      by_cases hb : badLine l0 = true
      · simp [firstBad, hb] at h
        obtain ⟨hi, hl⟩ := h
        subst hi
        subst hl
        unfold parseLines
        rw [parseStep_bad n st l0 hb]
        rfl
      · have hb2 : badLine l0 = false := by simpa using hb
        simp only [firstBad, hb2, Bool.false_eq_true, if_false] at h
        obtain ⟨⟨j, l2⟩, hj, heq⟩ := Option.map_eq_some'.mp h
        obtain ⟨hji, hl2⟩ : j + 1 = i ∧ l2 = l := by
          constructor
          · exact congrArg Prod.fst heq
          · exact congrArg Prod.snd heq
        subst hji
        subst hl2
        obtain ⟨st2, hst2⟩ := parseStep_good n st l0 hb2
        unfold parseLines
        rw [hst2]
        have hrec := (ih st2 (n + 1)).1 j l2 hj
        rw [show n + (j + 1) = n + 1 + j from by omega]
        exact hrec
    · intro h
      by_cases hb : badLine l0 = true
      · simp [firstBad, hb] at h
      · have hb2 : badLine l0 = false := by simpa using hb
        simp only [firstBad, hb2, Bool.false_eq_true, if_false] at h
        obtain ⟨st2, hst2⟩ := parseStep_good n st l0 hb2
        unfold parseLines
        rw [hst2]
        exact (ih st2 (n + 1)).2 (Option.map_eq_none'.mp h)

/-- Claim C9: parsing fails exactly at the first line that is non-blank,
not a comment, not a variable assignment, not a recipe header, and not
indented by a tab or four spaces; the error carries the 1-based line
number and the message built from the trimmed text.  If no such line
exists the parse succeeds; in particular an indented body line with no
recipe in progress is consumed silently (never an error). -/
theorem c9_claim (content : String) :
    (∀ i l, firstBad (rustLines content) = some (i, l) →
      parse_justfile_str content =
        .error (.ParseError (i + 1) ("Unexpected content: " ++ rustTrim l)))
  ∧ (firstBad (rustLines content) = none → ∃ jf, parse_justfile_str content = .ok jf)
  ∧ (∀ n (st : PState) (l : String), rustTrim l ≠ "" →
      strStartsWith (rustTrim l) "#" = false →
      parse_variable_assignment (rustTrim l) = none →
      parse_recipe_line (rustTrim l) st.current_doc = none →
      (strStartsWith l "\t" || strStartsWith l "    ") = true →
      st.current_recipe = none →
      parseStep n st l = .ok { st with current_doc := none }) := by
  refine ⟨?_, ?_, ?_⟩
  · intro i l h
    have hrw := (parseLines_spec (rustLines content)
      { recipes := [], vars := [], current_recipe := none, current_doc := none } 1).1 i l h
    unfold parse_justfile_str
    rw [Nat.add_comm 1 i] at hrw
    exact hrw
  · intro h
    exact (parseLines_spec (rustLines content)
      { recipes := [], vars := [], current_recipe := none, current_doc := none } 1).2 h
  · intro n st l h1 h2 h3 h4 h5 h6
    simp [parseStep, h1, h2, h3, h4, h5, h6]

/-- Witness for C9: the line `oops` (not blank, no `#`, no `=`, no `:`,
not indented) fails the parse at line 1 with the expected message, and a
lone indented line parses fine. -/
theorem c9_witness :
    parse_justfile_str "oops\n" = .error (.ParseError 1 "Unexpected content: oops") ∧
    parseStep 1 { recipes := [], vars := [], current_recipe := none, current_doc := none }
        "\techo hi" =
      .ok { recipes := [], vars := [], current_recipe := none, current_doc := none } :=
  ⟨((c9_claim "oops\n").1 0 "oops" (by decide)).trans (by decide),
   ((c9_claim "x").2.2 1 _ "\techo hi" (by decide) (by decide) (by decide) (by decide)
      (by decide) rfl).trans (by decide)⟩


/-! ## Claim C6: dependency order, zero-argument recursion, output join -/

theorem runLines_single (sh : String → String → ShellOut) (wd cmd oOut oErr : String)
    (h : sh wd cmd = { stdout := oOut, stderr := oErr, code := some 0 })
    (hskip : skipLine cmd = false)
    (hsq : splitQuiet (stripIndent cmd) = (false, cmd)) :
    runLines sh wd [cmd] "" "" =
      { stdout := oOut, stderr := oErr, exit_code := 0, trace := [(wd, cmd)] } := by
  simp only [runLines, hskip, Bool.false_eq_true, if_false, hsq, h]
  by_cases h1 : oOut = "" <;> by_cases h2 : oErr = "" <;>
    simp [h1, h2, joinNl_empty_left, runLines]

/-- Recipe `a` of the C6 chain. -/
def recipeA6 : Recipe :=
  { name := "a", parameters := [], documentation := none, body := "cmdA", dependencies := [] }

/-- Recipe `b` of the C6 chain: depends on `a`; its parameter `p`
defaults to `vb`, so a zero-argument dependency call dispatches
`cmdB vb`. -/
def recipeB6 : Recipe :=
  { name := "b", parameters := [{ name := "p", default_value := some "vb" }],
    documentation := none, body := "cmdB \x7b\x7b p \x7d\x7d", dependencies := ["a"] }

/-- Recipe `c` of the C6 chain: depends on `b`. -/
def recipeC6 : Recipe :=
  { name := "c", parameters := [], documentation := none, body := "cmdC", dependencies := ["b"] }

/-- The C6 chain justfile. -/
def jfC6 : Justfile := { recipes := [recipeA6, recipeB6, recipeC6], vars := [] }

/-- One definitional unfolding of `execute_recipe` at positive fuel. -/
theorem execute_recipe_succ (sh : String → String → ShellOut) (jf : Justfile) (fuel : Nat)
    (recipe_name : String) (args : List String) (working_dir : String) :
    execute_recipe sh jf (Nat.succ fuel) recipe_name args working_dir =
      match find_recipe jf recipe_name with
      | .error e => some (.error e)
      | .ok recipe =>
        match validate_arguments recipe args with
        | .error e => some (.error e)
        | .ok param_values =>
          match execDeps (fun d => execute_recipe sh jf fuel d [] working_dir)
              recipe_name recipe.dependencies emptyResult [] with
          | none => none
          | some (.error e) => some (.error e)
          | some (.ok depOut) =>
            match substitute_parameters recipe.body param_values jf.vars with
            | .error e => some (.error e)
            | .ok substituted_body =>
              let rr := execute_commands sh substituted_body working_dir recipe_name
              some (.ok (mergeDep depOut.1 rr.1, depOut.2 ++ rr.2)) := rfl

theorem execA6 (sh : String → String → ShellOut) (wd oA : String)
    (hA : sh wd "cmdA" = { stdout := oA, stderr := "", code := some 0 }) :
    execute_recipe sh jfC6 1 "a" [] wd =
      some (.ok ({ stdout := oA, stderr := "", exit_code := 0, duration_ms := 0 },
        [(wd, "cmdA")])) := by
  have hrun := runLines_single sh wd "cmdA" oA "" hA (by decide) (by decide)
  show execute_recipe sh jfC6 (Nat.succ 0) "a" [] wd = _
  rw [execute_recipe_succ]
  simp only [
    show find_recipe jfC6 "a" = Except.ok recipeA6 from by decide,
    show validate_arguments recipeA6 [] = Except.ok ([] : List (String × String)) from by decide,
    show recipeA6.dependencies = ([] : List String) from rfl,
    execDeps,
    show substitute_parameters recipeA6.body [] jfC6.vars = Except.ok "cmdA" from by decide,
    execute_commands,
    show rustLines "cmdA" = ["cmdA"] from by decide,
    hrun]
  simp [mergeDep, emptyResult, joinNl_empty_left]

theorem execB6 (sh : String → String → ShellOut) (wd oA oB : String)
    (hA : sh wd "cmdA" = { stdout := oA, stderr := "", code := some 0 })
    (hB : sh wd "cmdB vb" = { stdout := oB, stderr := "", code := some 0 }) :
    execute_recipe sh jfC6 2 "b" [] wd =
      some (.ok ({ stdout := joinNl oA oB, stderr := "", exit_code := 0, duration_ms := 0 },
        [(wd, "cmdA"), (wd, "cmdB vb")])) := by
  have hrun := runLines_single sh wd "cmdB vb" oB "" hB (by decide) (by decide)
  show execute_recipe sh jfC6 (Nat.succ 1) "b" [] wd = _
  rw [execute_recipe_succ]
  simp only [
    show find_recipe jfC6 "b" = Except.ok recipeB6 from by decide,
    show validate_arguments recipeB6 [] = Except.ok [("p", "vb")] from by decide,
    show recipeB6.dependencies = ["a"] from rfl,
    execDeps,
    execA6 sh wd oA hA,
    show substitute_parameters recipeB6.body [("p", "vb")] jfC6.vars = Except.ok "cmdB vb" from by
      decide,
    execute_commands,
    show rustLines "cmdB vb" = ["cmdB vb"] from by decide,
    hrun]
  simp [mergeDep, accumulateDep, emptyResult, joinNl_empty_left, joinNl_empty_right]

/-- Claim C6: in the chain where `c` depends on `b` which depends on
`a`, a successful execution dispatches the dependency commands in
declaration order before the recipe's own command, all in the same
working directory; the dependency call passes zero arguments (recipe
`b` runs with its default `vb`); and stdout is the dependency outputs
followed by the recipe's own, joined by `joinNl`, which inserts one
newline between consecutive non-empty parts and skips the separator
when either side is empty. -/
theorem c6_claim (sh : String → String → ShellOut) (wd oA oB oC : String)
    (hA : sh wd "cmdA" = { stdout := oA, stderr := "", code := some 0 })
    (hB : sh wd "cmdB vb" = { stdout := oB, stderr := "", code := some 0 })
    (hC : sh wd "cmdC" = { stdout := oC, stderr := "", code := some 0 }) :
    (execute_recipe sh jfC6 3 "c" [] wd =
      some (.ok ({ stdout := joinNl (joinNl oA oB) oC, stderr := "", exit_code := 0,
                   duration_ms := 0 }, [(wd, "cmdA"), (wd, "cmdB vb"), (wd, "cmdC")])))
  ∧ (∀ x y : String, x ≠ "" → y ≠ "" → joinNl x y = x ++ "\n" ++ y)
  ∧ (∀ y : String, joinNl "" y = y)
  ∧ (∀ x : String, joinNl x "" = x) := by
  refine ⟨?_, ?_, joinNl_empty_left, joinNl_empty_right⟩
  · have hrun := runLines_single sh wd "cmdC" oC "" hC (by decide) (by decide)
    show execute_recipe sh jfC6 (Nat.succ 2) "c" [] wd = _
    rw [execute_recipe_succ]
    simp only [
      show find_recipe jfC6 "c" = Except.ok recipeC6 from by decide,
      show validate_arguments recipeC6 [] = Except.ok ([] : List (String × String)) from by
        decide,
      show recipeC6.dependencies = ["b"] from rfl,
      execDeps,
      execB6 sh wd oA oB hA hB,
      show substitute_parameters recipeC6.body [] jfC6.vars = Except.ok "cmdC" from by decide,
      execute_commands,
      show rustLines "cmdC" = ["cmdC"] from by decide,
      hrun]
    simp [mergeDep, accumulateDep, emptyResult, joinNl_empty_left, joinNl_empty_right]
  · intro x y hx hy
    simp [joinNl, hx, hy]

/-- Shell oracle for the C6 witness. -/
def shC6 : String → String → ShellOut := fun _ c =>
  if c = "cmdA" then { stdout := "A", stderr := "", code := some 0 }
  else if c = "cmdB vb" then { stdout := "B", stderr := "", code := some 0 }
  else if c = "cmdC" then { stdout := "C", stderr := "", code := some 0 }
  else { stdout := "", stderr := "", code := some 0 }

/-- Witness for C6: the chain produces `A\nB\nC` and the three commands
in order. -/
theorem c6_witness :
    execute_recipe shC6 jfC6 3 "c" [] "/w" =
      some (.ok ({ stdout := "A\nB\nC", stderr := "", exit_code := 0, duration_ms := 0 },
        [("/w", "cmdA"), ("/w", "cmdB vb"), ("/w", "cmdC")])) :=
  ((c6_claim shC6 "/w" "A" "B" "C" (by decide) (by decide) (by decide)).1).trans (by decide)


/-! ## Claim C10: the pattern requires single spaces inside the braces -/

theorem containsSub_nil_pat (l : List Char) : containsSub ([] : List Char) l = true := by
  cases l with
  | nil => rfl
  | cons c cs => simp [containsSub, List.isPrefixOf]

theorem isPrefixOf_self_append (p v : List Char) : p.isPrefixOf (p ++ v) = true := by
  induction p with
  | nil => simp [List.isPrefixOf]
  | cons a as ih => simp [List.isPrefixOf, ih]

theorem containsSub_self_append (p v : List Char) : containsSub p (p ++ v) = true := by
  cases p with
  | nil => exact containsSub_nil_pat v
  | cons c ps => simp [containsSub, isPrefixOf_self_append]

theorem containsSub_append_right (p u w : List Char) (h : containsSub p w = true) :
    containsSub p (u ++ w) = true := by
  induction u with
  | nil => simpa using h
  | cons a us ih => simp [containsSub, ih]

theorem isPrefixOf_append_left (p q l : List Char) (h : (p ++ q).isPrefixOf l = true) :
    p.isPrefixOf l = true := by
  induction p generalizing l with
  | nil => simp [List.isPrefixOf]
  | cons a as ih =>
    cases l with
    | nil => simp [List.isPrefixOf] at h
    | cons b bs =>
      rw [List.cons_append] at h
      simp only [List.isPrefixOf, Bool.and_eq_true] at h ⊢
      exact ⟨h.1, ih bs h.2⟩

theorem containsSub_mono (p q l : List Char) (h : containsSub (p ++ q) l = true) :
    containsSub p l = true := by
  induction l with
  | nil =>
    simp only [containsSub] at h ⊢
    simp only [List.isEmpty_iff, List.append_eq_nil] at h
    simp [List.isEmpty_iff, h.1]
  | cons c cs ih =>
    simp only [containsSub, Bool.or_eq_true] at h ⊢
    cases h with
    | inl hp => exact Or.inl (isPrefixOf_append_left p q _ hp)
    | inr hr => exact Or.inr (ih hr)

theorem replaceAux_id (pat rep : List Char) (f : Nat) (l : List Char)
    (h : containsSub pat l = false) : replaceAux pat rep f l = l := by
  induction f generalizing l with
  | zero => cases l <;> rfl
  | succ f ih =>
    cases l with
    | nil => rfl
    | cons c rest =>
      simp only [containsSub, Bool.or_eq_false_iff] at h
      simp only [replaceAux, h.1, Bool.false_eq_true, if_false]
      rw [ih rest h.2]

theorem rustReplace_id (s pat rep : String) (h : containsStr s pat = false) :
    rustReplace s pat rep = s := by
  unfold containsStr at h
  unfold rustReplace
  rw [replaceAux_id _ _ _ _ h]

theorem mkPattern_not_contained (body n : String)
    (h : containsStr body "\x7b\x7b " = false) : containsStr body (mkPattern n) = false := by
  cases hc : containsStr body (mkPattern n) with
  | false => rfl
  | true =>
    exfalso
    unfold containsStr at hc h
    have hdata : (mkPattern n).data = "\x7b\x7b ".data ++ (n.data ++ " \x7d\x7d".data) := by
      unfold mkPattern
      rw [strData_append, strData_append, List.append_assoc]
    rw [hdata] at hc
    rw [containsSub_mono _ _ _ hc] at h
    cases h

theorem foldl_fix (f : String → String × String → String) (body : String)
    (hf : ∀ kv, f body kv = body) : ∀ l : List (String × String), l.foldl f body = body := by
  intro l
  induction l with
  | nil => rfl
  | cons kv rest ih =>
    simp only [List.foldl_cons]
    rw [hf kv]
    exact ih

theorem replaceAll_id (body : String) (pv vs : List (String × String))
    (h : containsStr body "\x7b\x7b " = false) : replaceAll body pv vs = body := by
  have h1 : pv.foldl (fun acc kv => rustReplace acc (mkPattern kv.1) kv.2) body = body :=
    foldl_fix _ body (fun kv => rustReplace_id _ _ _ (mkPattern_not_contained body kv.1 h)) pv
  have h2 : vs.foldl
      (fun acc kv => rustReplace acc (mkPattern kv.1) (cleanVariableValue kv.2)) body = body :=
    foldl_fix _ body (fun kv => rustReplace_id _ _ _ (mkPattern_not_contained body kv.1 h)) vs
  unfold replaceAll
  rw [h1, h2]

/-- The single-recipe justfile of C10 whose recipe binds `name` as a
required parameter. -/
def jf10p (name body : String) : Justfile :=
  { recipes := [{ name := "r", parameters := [{ name := name, default_value := none }],
                  documentation := none, body := body, dependencies := [] }], vars := [] }

/-- The single-recipe justfile of C10 whose `name` is a defined
variable. -/
def jf10v (name value body : String) : Justfile :=
  { recipes := [{ name := "r", parameters := [], documentation := none, body := body,
                  dependencies := [] }], vars := [(name, value)] }

/-- Claim C10: substitution only replaces the exact spaced pattern.  In
a body of the form `pre{{name}}post` that nowhere contains the spaced
opening marker, no replacement touches the text even when `name` is a
bound parameter (or a defined variable) — the occurrence is left
unreplaced, and both substitution and the whole execution fail with
`SubstitutionFailed`. -/
theorem c10_claim (sh : String → String → ShellOut) (wd name value pre post : String)
    (h : containsStr (pre ++ "\x7b\x7b" ++ name ++ "\x7d\x7d" ++ post) "\x7b\x7b " = false) :
    (replaceAll (pre ++ "\x7b\x7b" ++ name ++ "\x7d\x7d" ++ post) [(name, value)] [] =
      pre ++ "\x7b\x7b" ++ name ++ "\x7d\x7d" ++ post)
  ∧ (substitute_parameters (pre ++ "\x7b\x7b" ++ name ++ "\x7d\x7d" ++ post) [(name, value)] [] =
      .error (.SubstitutionFailed unresolvedMessage))
  ∧ (replaceAll (pre ++ "\x7b\x7b" ++ name ++ "\x7d\x7d" ++ post) [] [(name, value)] =
      pre ++ "\x7b\x7b" ++ name ++ "\x7d\x7d" ++ post)
  ∧ (substitute_parameters (pre ++ "\x7b\x7b" ++ name ++ "\x7d\x7d" ++ post) [] [(name, value)] =
      .error (.SubstitutionFailed unresolvedMessage))
  ∧ (execute_recipe sh (jf10p name (pre ++ "\x7b\x7b" ++ name ++ "\x7d\x7d" ++ post))
      1 "r" [value] wd = some (.error (.SubstitutionFailed unresolvedMessage)))
  ∧ (execute_recipe sh (jf10v name value (pre ++ "\x7b\x7b" ++ name ++ "\x7d\x7d" ++ post))
      1 "r" [] wd = some (.error (.SubstitutionFailed unresolvedMessage))) := by
  have hdata : (pre ++ "\x7b\x7b" ++ name ++ "\x7d\x7d" ++ post).data =
      pre.data ++ ("\x7b\x7b".data ++ (name.data ++ ("\x7d\x7d".data ++ post.data))) := by
    simp [strData_append]
  have hopen : containsStr (pre ++ "\x7b\x7b" ++ name ++ "\x7d\x7d" ++ post) "\x7b\x7b" = true := by
    unfold containsStr
    rw [hdata]
    exact containsSub_append_right _ _ _ (containsSub_self_append _ _)
  have hclose : containsStr (pre ++ "\x7b\x7b" ++ name ++ "\x7d\x7d" ++ post) "\x7d\x7d" = true := by
    unfold containsStr
    rw [hdata]
    exact containsSub_append_right _ _ _ (containsSub_append_right _ _ _
      (containsSub_append_right _ _ _ (containsSub_self_append _ _)))
  have hra1 : replaceAll (pre ++ "\x7b\x7b" ++ name ++ "\x7d\x7d" ++ post) [(name, value)] [] =
      pre ++ "\x7b\x7b" ++ name ++ "\x7d\x7d" ++ post := replaceAll_id _ _ _ h
  have hra2 : replaceAll (pre ++ "\x7b\x7b" ++ name ++ "\x7d\x7d" ++ post) [] [(name, value)] =
      pre ++ "\x7b\x7b" ++ name ++ "\x7d\x7d" ++ post := replaceAll_id _ _ _ h
  have hsub1 : substitute_parameters (pre ++ "\x7b\x7b" ++ name ++ "\x7d\x7d" ++ post)
      [(name, value)] [] = .error (.SubstitutionFailed unresolvedMessage) := by
    unfold substitute_parameters
    simp only [hra1, hopen, hclose]
    rfl
  have hsub2 : substitute_parameters (pre ++ "\x7b\x7b" ++ name ++ "\x7d\x7d" ++ post)
      [] [(name, value)] = .error (.SubstitutionFailed unresolvedMessage) := by
    unfold substitute_parameters
    simp only [hra2, hopen, hclose]
    rfl
  refine ⟨hra1, hsub1, hra2, hsub2, ?_, ?_⟩
  · show execute_recipe sh (jf10p name (pre ++ "\x7b\x7b" ++ name ++ "\x7d\x7d" ++ post))
      (Nat.succ 0) "r" [value] wd = _
    rw [execute_recipe_succ]
    have hfind : find_recipe (jf10p name (pre ++ "\x7b\x7b" ++ name ++ "\x7d\x7d" ++ post)) "r" =
        .ok { name := "r", parameters := [{ name := name, default_value := none }],
              documentation := none, body := pre ++ "\x7b\x7b" ++ name ++ "\x7d\x7d" ++ post,
              dependencies := [] } := by
      simp [find_recipe, jf10p, List.find?]
    have hval : validate_arguments
        { name := "r", parameters := [{ name := name, default_value := none }],
          documentation := none, body := pre ++ "\x7b\x7b" ++ name ++ "\x7d\x7d" ++ post,
          dependencies := [] } [value] = .ok [(name, value)] := by
      simp [validate_arguments, bindArgs, fillDefaults, insertKV]
    simp only [hfind, hval, execDeps]
    simp only [show (jf10p name (pre ++ "\x7b\x7b" ++ name ++ "\x7d\x7d" ++ post)).vars =
      ([] : List (String × String)) from rfl]
    simp only [hsub1]
  · show execute_recipe sh (jf10v name value (pre ++ "\x7b\x7b" ++ name ++ "\x7d\x7d" ++ post))
      (Nat.succ 0) "r" [] wd = _
    rw [execute_recipe_succ]
    have hfind : find_recipe (jf10v name value (pre ++ "\x7b\x7b" ++ name ++ "\x7d\x7d" ++ post))
        "r" = .ok { name := "r", parameters := [], documentation := none,
                    body := pre ++ "\x7b\x7b" ++ name ++ "\x7d\x7d" ++ post,
                    dependencies := [] } := by
      simp [find_recipe, jf10v, List.find?]
    have hval : validate_arguments
        { name := "r", parameters := [], documentation := none,
          body := pre ++ "\x7b\x7b" ++ name ++ "\x7d\x7d" ++ post,
          dependencies := [] } [] = .ok [] := by
      simp [validate_arguments, bindArgs, fillDefaults]
    simp only [hfind, hval, execDeps]
    simp only [show (jf10v name value (pre ++ "\x7b\x7b" ++ name ++ "\x7d\x7d" ++ post)).vars =
      [(name, value)] from rfl]
    simp only [hsub2]

/-- Trivial shell oracle for the C10 witness (never consulted: the
execution fails before dispatching any command). -/
def shC10 : String → String → ShellOut := fun _ _ =>
  { stdout := "", stderr := "", code := some 0 }

/-- Witness for C10: the body `echo {{greeting}}` with bound parameter
`greeting` fails with `SubstitutionFailed`. -/
theorem c10_witness :
    execute_recipe shC10
      (jf10p "greeting" ("echo " ++ "\x7b\x7b" ++ "greeting" ++ "\x7d\x7d" ++ ""))
      1 "r" ["hi"] "/w" = some (.error (.SubstitutionFailed unresolvedMessage)) :=
  (c10_claim shC10 "/w" "greeting" "hi" "echo " "" (by decide)).2.2.2.2.1


/-- Shell oracle for the C5 witness. -/
def shC5 : String → String → ShellOut := fun _ c =>
  if c = "false" then { stdout := "", stderr := "", code := some 1 }
  else if c = "echo after" then { stdout := "after\n", stderr := "", code := some 0 }
  else { stdout := "", stderr := "", code := some 0 }

/-- Witness for C5 at the concrete `"false\necho after\n"` scenario. -/
theorem c5_witness :
    (execute_commands shC5 "false\necho after\n" "/w" "r").1.exit_code = 1 ∧
    (execute_commands shC5 "false\necho after\n" "/w" "r").1.stdout = "" ∧
    containsStr (execute_commands shC5 "false\necho after\n" "/w" "r").1.stdout "after" = false :=
  (c5_claim shC5 "/w" "x" [] "" "").2.2 (by decide) (by decide)


end JustMCP
